import Mathlib

/-!
The record store (`mdb`) and the JSON handlers (`jsonapi`) of mailinglist

A shallow embedding of `mdb/mdb.go` and `jsonapi/jsonapi.go`.

* `database/sql` is the interface `Driver`: `Exec` and `Query` over an explicit
  store state, each of which may return an error.
* `sqlite` is the engine behind that interface for the five statements the
  program issues against the table `emails(id INTEGER PRIMARY KEY, email TEXT
  UNIQUE, confirmed_at INTEGER, opt_out INTEGER)`.
* The functions of package `mdb` are written against `Driver`, statement by
  statement as in the source; the handlers of package `jsonapi` call them.
* Go `int` is 64 bits wide; arithmetic on it wraps (`wrapInt64`).
-/

set_option autoImplicit false

/-! ## Go values -/

/-- A Go `error` value; `msg` is what `Error()` returns. -/
structure GoError where
  msg : String
  deriving DecidableEq, Repr

/-- The run-time panics the two packages can raise. -/
inductive Panic where
  /-- Dereference of a nil pointer (`entry.ConfirmedAt.Unix()` with a nil `ConfirmedAt`). -/
  | nilDereference
  /-- The message is `makeslice: cap out of range`. -/
  | makesliceCap
  deriving DecidableEq, Repr

/-- How a Go call that returns `(value, error)` ends: with a value, with an error, or in a panic. -/
inductive Outcome (α : Type) where
  | ok (a : α)
  | err (e : GoError)
  | panic (p : Panic)
  deriving DecidableEq, Repr

/-- Wrap-around of 64-bit signed arithmetic (Go `int` and `int64`). -/
def wrapInt64 (x : Int) : Int := (x + 2 ^ 63) % 2 ^ 64 - 2 ^ 63

namespace time

/-- A `time.Time`: seconds since the Unix epoch and the nanoseconds within that second. -/
structure Time where
  sec : Int
  nsec : Nat
  deriving DecidableEq, Repr

/-- The function `time.Unix(sec, nsec)` for `0 ≤ nsec < 1e9`. -/
def Unix (sec : Int) (nsec : Nat) : Time := ⟨sec, nsec⟩

/-- The method `t.Unix()`: seconds since the epoch, the fraction dropped. -/
def Time.Unix (t : Time) : Int := t.sec

end time

/-! ## The table and the SQL engine -/

/-- One row of `emails`: `id INTEGER PRIMARY KEY, email TEXT UNIQUE, confirmed_at INTEGER,
opt_out INTEGER` (0 or 1). -/
structure Row where
  id : Int
  email : String
  confirmed_at : Int
  opt_out : Bool
  deriving DecidableEq, Repr

/-- The contents of table `emails`, in insertion order. -/
abbrev Table := List Row

/-- Statements passed to `db.Exec`, with their bound parameters in order. -/
inductive ExecStmt where
  /-- `INSERT INTO emails(email, confirmed_at, opt_out) VALUES(?,0,false)` -/
  | insert (email : String)
  /-- `INSERT INTO emails(email, confirmed_at, opt_out) VALUES(?, ?, ?)
      ON CONFLICT(email) DO UPDATE SET confirmed_at=?, opt_out=?` -/
  | upsert (email : String) (t : Int) (optOut : Bool) (t2 : Int) (optOut2 : Bool)
  /-- `UPDATE emails SET opt_out=true WHERE email=?` -/
  | optOut (email : String)
  deriving DecidableEq, Repr

/-- Statements passed to `db.Query`, with their bound parameters in order. -/
inductive QueryStmt where
  /-- `SELECT id, email, confirmed_at, opt_out FROM emails WHERE email = ?` -/
  | byEmail (email : String)
  /-- `SELECT id, email, confirmed_at, opt_out FROM emails WHERE opt_out = false
      ORDER BY id ASC LIMIT ? OFFSET ?` -/
  | activePage (limit : Int) (offset : Int)
  deriving DecidableEq, Repr

/-- What `database/sql` offers the program: `Exec` and `Query` on a store state `σ`.
Either may fail with an error. -/
structure Driver (σ : Type) where
  Exec : σ → ExecStmt → σ × Option GoError
  Query : σ → QueryStmt → σ × Except GoError (List Row)

namespace sqlite

/-- The error of a violated `UNIQUE` constraint on `emails.email`. -/
def uniqueViolation : GoError := ⟨"UNIQUE constraint failed: emails.email"⟩

/-- Largest rowid in use, if any. -/
def maxRowid : Table → Option Int
  | [] => none
  | r :: rs =>
    match maxRowid rs with
    | none => some r.id
    | some m => some (max r.id m)

/-- The rowid given to a row inserted without an explicit id: one more than the
largest rowid in use, 1 in an empty table. (The engine leaves this rule only when the
largest rowid is `2^63 - 1`; such tables are outside this model.) -/
def nextRowid (t : Table) : Int :=
  match maxRowid t with
  | none => 1
  | some m => m + 1

/-- Whether some row carries `email` (the `UNIQUE` index lookup). -/
def hasEmail (t : Table) (email : String) : Bool := t.any (fun r => r.email == email)

/-- Plain `INSERT`: rejected when the email is taken, else a new row with a fresh id. -/
def insert (t : Table) (email : String) (confirmedAt : Int) (optOut : Bool) :
    Table × Option GoError :=
  if hasEmail t email then (t, some uniqueViolation)
  else (t ++ [⟨nextRowid t, email, confirmedAt, optOut⟩], none)

/-- `INSERT ... ON CONFLICT(email) DO UPDATE SET confirmed_at=?, opt_out=?`: the conflicting
row is updated in place with the two `SET` parameters, else the row is inserted. -/
def upsert (t : Table) (email : String) (confirmedAt : Int) (optOut : Bool)
    (setConfirmedAt : Int) (setOptOut : Bool) : Table × Option GoError :=
  if hasEmail t email then
    (t.map (fun r =>
      if r.email = email then { r with confirmed_at := setConfirmedAt, opt_out := setOptOut }
      else r), none)
  else (t ++ [⟨nextRowid t, email, confirmedAt, optOut⟩], none)

/-- `UPDATE emails SET opt_out=true WHERE email=?`. -/
def setOptOut (t : Table) (email : String) : Table × Option GoError :=
  (t.map (fun r => if r.email = email then { r with opt_out := true } else r), none)

/-- `SELECT ... WHERE email = ?`. -/
def selectByEmail (t : Table) (email : String) : List Row :=
  t.filter (fun r => r.email == email)

/-- `ORDER BY id ASC`. -/
def orderById (rs : List Row) : List Row :=
  rs.insertionSort (fun a b => a.id ≤ b.id)

/-- `LIMIT limit OFFSET offset`: a negative offset counts as zero, a negative limit as no
limit. -/
def limitOffset (rs : List Row) (limit offset : Int) : List Row :=
  let skipped := rs.drop offset.toNat
  if limit < 0 then skipped else skipped.take limit.toNat

/-- `SELECT ... WHERE opt_out = false ORDER BY id ASC LIMIT ? OFFSET ?`. -/
def selectActivePage (t : Table) (limit offset : Int) : List Row :=
  limitOffset (orderById (t.filter (fun r => r.opt_out == false))) limit offset

/-- Execution of the three data-changing statements. -/
def exec (t : Table) : ExecStmt → Table × Option GoError
  | .insert email => insert t email 0 false
  | .upsert email c o c2 o2 => upsert t email c o c2 o2
  | .optOut email => setOptOut t email

/-- Execution of the two `SELECT`s; the table is left as it is. -/
def query (t : Table) : QueryStmt → Table × Except GoError (List Row)
  | .byEmail email => (t, .ok (selectByEmail t email))
  | .activePage limit offset => (t, .ok (selectActivePage t limit offset))

end sqlite

/-- The engine as a `Driver` over the table contents. -/
def sqliteDriver : Driver Table := ⟨sqlite.exec, sqlite.query⟩

/-! ## Package `mdb` -/

namespace mdb

/-- The struct `EmailEntry`; `ConfirmedAt` is a `*time.Time` and may be nil. -/
structure EmailEntry where
  Id : Int := 0
  Email : String := ""
  ConfirmedAt : Option time.Time := none
  OptOut : Bool := false
  deriving DecidableEq, Repr

/-- The struct `GetEmailBatchQueryParams`. -/
structure GetEmailBatchQueryParams where
  Page : Int := 0
  Count : Int := 0
  deriving DecidableEq, Repr

/-- `TryCreate`: creates the empty table; on an existing table the engine reports
"table already exists" (code 1), which is swallowed and the table kept. -/
def TryCreate (db : Option Table) : Table :=
  match db with
  | none => []
  | some t => t

/-- `emailEntryFromRow`: the four columns become an entry, `confirmed_at` through
`time.Unix(confirmedAt, 0)`; the returned error is always nil. -/
def emailEntryFromRow (row : Row) : Except GoError EmailEntry :=
  let t := time.Unix row.confirmed_at 0
  .ok ⟨row.id, row.email, some t, row.opt_out⟩

/-- `CreateEmail`. -/
def CreateEmail {σ : Type} (db : Driver σ) (s : σ) (email : String) : σ × Option GoError :=
  match db.Exec s (.insert email) with
  | (s1, some err) => (s1, some err)
  | (s1, none) => (s1, none)

/-- `GetEmail`: the first row of the result, or `(nil, nil)` when there is none. -/
def GetEmail {σ : Type} (db : Driver σ) (s : σ) (email : String) :
    σ × Except GoError (Option EmailEntry) :=
  match db.Query s (.byEmail email) with
  | (s1, .error err) => (s1, .error err)
  | (s1, .ok rows) =>
    match rows with
    | row :: _ =>
      match emailEntryFromRow row with
      | .ok e => (s1, .ok (some e))
      | .error err => (s1, .error err)
    | [] => (s1, .ok none)

/-- `UpdateEmail`: `entry.ConfirmedAt.Unix()` panics on a nil pointer before any statement
is issued. -/
def UpdateEmail {σ : Type} (db : Driver σ) (s : σ) (entry : EmailEntry) : σ × Outcome Unit :=
  match entry.ConfirmedAt with
  | none => (s, .panic .nilDereference)
  | some c =>
    let t := c.Unix
    match db.Exec s (.upsert entry.Email t entry.OptOut t entry.OptOut) with
    | (s1, some err) => (s1, .err err)
    | (s1, none) => (s1, .ok ())

/-- `DeleteEmail`. -/
def DeleteEmail {σ : Type} (db : Driver σ) (s : σ) (email : String) : σ × Option GoError :=
  match db.Exec s (.optOut email) with
  | (s1, some err) => (s1, some err)
  | (s1, none) => (s1, none)

/-- Size in bytes of an `EmailEntry` on a 64-bit platform. -/
def sizeofEmailEntry : Int := 40

/-- The runtime limit on one allocation, `maxAlloc`, on linux/amd64. -/
def maxAlloc : Int := 2 ^ 48

/-- Whether `make([]EmailEntry, 0, cap)` panics: a negative capacity, or one whose byte
size exceeds `maxAlloc`. -/
def makesliceFails (cap : Int) : Bool :=
  decide (cap < 0) || decide (maxAlloc < sizeofEmailEntry * cap)

/-- The loop `for rows.Next()` of `GetEmailBatch`: append the entry of each row, stop at the
first error of `emailEntryFromRow`. -/
def collectEntries : List Row → List EmailEntry → Except GoError (List EmailEntry)
  | [], emails => .ok emails
  | row :: rest, emails =>
    match emailEntryFromRow row with
    | .error err => .error err
    | .ok email => collectEntries rest (emails ++ [email])

/-- `GetEmailBatch`: the query with `LIMIT Count OFFSET (Page-1)*Count`, the product in
64-bit arithmetic, then the result slice allocated with capacity `Count` and filled. -/
def GetEmailBatch {σ : Type} (db : Driver σ) (s : σ) (params : GetEmailBatchQueryParams) :
    σ × Outcome (List EmailEntry) :=
  match db.Query s (.activePage params.Count (wrapInt64 (wrapInt64 (params.Page - 1) * params.Count))) with
  | (s1, .error err) => (s1, .err err)
  | (s1, .ok rows) =>
    if makesliceFails params.Count then (s1, .panic .makesliceCap)
    else
      match collectEntries rows [] with
      | .error err => (s1, .err err)
      | .ok emails => (s1, .ok emails)

end mdb

/-! ## Package `jsonapi` -/

namespace jsonapi

open mdb

/-- The documents `json.Marshal` produces for the values the handlers pass to it. -/
inductive Json where
  /-- The object `{"Err": Err}`, from the struct with the one field `Err string`. -/
  | errorMsg (Err : String)
  /-- An `error` value, encoded through the exported fields of its dynamic type. -/
  | errorValue (e : GoError)
  /-- A `*EmailEntry`: the record, or `null` for a nil pointer. -/
  | entry (e : Option EmailEntry)
  /-- A `[]EmailEntry`. -/
  | entries (es : List EmailEntry)
  deriving DecidableEq, Repr

/-- The `interface{}` values the `withData` closures return. -/
inductive Data where
  | errorMsg (Err : String)
  | entry (e : Option EmailEntry)
  | entries (es : List EmailEntry)
  deriving DecidableEq, Repr

/-- An `http.ResponseWriter`: the `Content-Type` header, the status once it is written, and
the documents written to the body. -/
structure ResponseWriter where
  contentType : Option String := none
  status : Option Nat := none
  body : List Json := []
  deriving DecidableEq, Repr

/-- `w.WriteHeader(code)`: only the first status written counts. -/
def ResponseWriter.WriteHeader (w : ResponseWriter) (code : Nat) : ResponseWriter :=
  match w.status with
  | some _ => w
  | none => { w with status := some code }

/-- `w.Write(b)`: writes status 200 first when no status was written yet. -/
def ResponseWriter.Write (w : ResponseWriter) (b : Json) : ResponseWriter :=
  let w1 := w.WriteHeader 200
  { w1 with body := w1.body ++ [b] }

/-- The status the client receives: 200 when the handler wrote none. -/
def ResponseWriter.statusCode (w : ResponseWriter) : Nat := w.status.getD 200

/-- A request: its method and its body, `some v` when the body decodes to `v` and `none`
when it does not decode. -/
structure Request (α : Type) where
  Method : String
  Body : Option α

/-- What serving one request leaves behind: the response, the store, and the panic that
ended the handler, if one did. -/
structure Served (σ : Type) where
  w : ResponseWriter
  db : σ
  panic : Option Panic

/-- `setJsonHeader`. -/
def setJsonHeader (w : ResponseWriter) : ResponseWriter :=
  { w with contentType := some "application/json; charset=utf-8" }

/-- `fromJson`: the decoded body overwrites the target; the error of `json.Unmarshal` is
dropped, so an undecodable body leaves the target as it was. -/
def fromJson {α : Type} (body : Option α) (target : α) : α :=
  match body with
  | some v => v
  | none => target

/-- Whether `json.Marshal` accepts every timestamp of an entry; `timeOk` is
`Time.MarshalJSON` succeeding (year within 0..9999). -/
def entryOk (timeOk : time.Time → Bool) (e : EmailEntry) : Bool :=
  match e.ConfirmedAt with
  | none => true
  | some t => timeOk t

/-- `json.Marshal(&data)`. -/
def jsonMarshal (timeOk : time.Time → Bool) : Data → Except GoError Json
  | .errorMsg m => .ok (.errorMsg m)
  | .entry none => .ok (.entry none)
  | .entry (some e) =>
    if entryOk timeOk e then .ok (.entry (some e)) else .error ⟨"json: error calling MarshalJSON"⟩
  | .entries es =>
    if es.all (entryOk timeOk) then .ok (.entries es) else .error ⟨"json: error calling MarshalJSON"⟩

/-- `json.Marshal(&serverErr)`. -/
def jsonMarshalError (serverErr : GoError) : Except GoError Json := .ok (.errorValue serverErr)

/-- `returnJson`: `withData` may write to `w` and use the store. -/
def returnJson {σ : Type} (timeOk : time.Time → Bool) (w : ResponseWriter) (s : σ)
    (withData : ResponseWriter → σ → ResponseWriter × σ × Outcome Data) : Served σ :=
  let w0 := setJsonHeader w
  match withData w0 s with
  | (w1, s1, .panic p) => ⟨w1, s1, some p⟩
  | (w1, s1, .err serverErr) =>
    let w2 := w1.WriteHeader 500
    match jsonMarshalError serverErr with
    | .error _ => ⟨w2, s1, none⟩
    | .ok serverErrJson => ⟨w2.Write serverErrJson, s1, none⟩
  | (w1, s1, .ok data) =>
    match jsonMarshal timeOk data with
    | .error _ => ⟨w1.WriteHeader 500, s1, none⟩
    | .ok dataJson => ⟨w1.Write dataJson, s1, none⟩

/-- `returnErr`. -/
def returnErr {σ : Type} (timeOk : time.Time → Bool) (w : ResponseWriter) (s : σ)
    (err : GoError) (code : Nat) : Served σ :=
  returnJson timeOk w s (fun w1 s1 => (w1.WriteHeader code, s1, .ok (.errorMsg err.msg)))

/-- The closure `return mdb.GetEmail(db, entry.Email)` shared by four handlers. -/
def fetch {σ : Type} (db : Driver σ) (email : String) (w : ResponseWriter) (s : σ) :
    ResponseWriter × σ × Outcome Data :=
  match mdb.GetEmail db s email with
  | (s1, .error err) => (w, s1, .err err)
  | (s1, .ok e) => (w, s1, .ok (.entry e))

/-- Handler `CreateEmail`. -/
def CreateEmail {σ : Type} (timeOk : time.Time → Bool) (db : Driver σ) (s : σ)
    (r : Request EmailEntry) : Served σ :=
  let w : ResponseWriter := {}
  if r.Method ≠ "POST" then ⟨w, s, none⟩
  else
    let entry := fromJson r.Body ({} : EmailEntry)
    match mdb.CreateEmail db s entry.Email with
    | (s1, some err) => returnErr timeOk w s1 err 400
    | (s1, none) => returnJson timeOk w s1 (fetch db entry.Email)

/-- Handler `GetEmail`. -/
def GetEmail {σ : Type} (timeOk : time.Time → Bool) (db : Driver σ) (s : σ)
    (r : Request EmailEntry) : Served σ :=
  let w : ResponseWriter := {}
  if r.Method ≠ "GET" then ⟨w, s, none⟩
  else
    let entry := fromJson r.Body ({} : EmailEntry)
    returnJson timeOk w s (fetch db entry.Email)

/-- Handler `UpdateEmail`. -/
def UpdateEmail {σ : Type} (timeOk : time.Time → Bool) (db : Driver σ) (s : σ)
    (r : Request EmailEntry) : Served σ :=
  let w : ResponseWriter := {}
  if r.Method ≠ "PUT" then ⟨w, s, none⟩
  else
    let entry := fromJson r.Body ({} : EmailEntry)
    match mdb.UpdateEmail db s entry with
    | (s1, .panic p) => ⟨w, s1, some p⟩
    | (s1, .err err) => returnErr timeOk w s1 err 400
    | (s1, .ok _) => returnJson timeOk w s1 (fetch db entry.Email)

/-- Handler `DeleteEmail`. -/
def DeleteEmail {σ : Type} (timeOk : time.Time → Bool) (db : Driver σ) (s : σ)
    (r : Request EmailEntry) : Served σ :=
  let w : ResponseWriter := {}
  if r.Method ≠ "POST" then ⟨w, s, none⟩
  else
    let entry := fromJson r.Body ({} : EmailEntry)
    match mdb.DeleteEmail db s entry.Email with
    | (s1, some err) => returnErr timeOk w s1 err 400
    | (s1, none) => returnJson timeOk w s1 (fetch db entry.Email)

/-- The message of the validation error of handler `GetEmailBatch`. -/
def batchParamsError : GoError :=
  ⟨"page and count fields are required and must be greater than 0"⟩

/-- The closure `return mdb.GetEmailBatch(db, queryOptions)`. -/
def fetchBatch {σ : Type} (db : Driver σ) (queryOptions : GetEmailBatchQueryParams)
    (w : ResponseWriter) (s : σ) : ResponseWriter × σ × Outcome Data :=
  match mdb.GetEmailBatch db s queryOptions with
  | (s1, .panic p) => (w, s1, .panic p)
  | (s1, .err err) => (w, s1, .err err)
  | (s1, .ok emails) => (w, s1, .ok (.entries emails))

/-- Handler `GetEmailBatch`. -/
def GetEmailBatch {σ : Type} (timeOk : time.Time → Bool) (db : Driver σ) (s : σ)
    (r : Request GetEmailBatchQueryParams) : Served σ :=
  let w : ResponseWriter := {}
  if r.Method ≠ "GET" then ⟨w, s, none⟩
  else
    let queryOptions := fromJson r.Body ({} : GetEmailBatchQueryParams)
    if queryOptions.Count ≤ 0 ∨ queryOptions.Page ≤ 0 then
      returnErr timeOk w s batchParamsError 400
    else returnJson timeOk w s (fetchBatch db queryOptions)

end jsonapi

/-- A connection on which every statement fails with the same error (a closed handle,
an unreadable file). -/
def brokenDriver (err : GoError) : Driver Unit :=
  ⟨fun s _ => (s, some err), fun s _ => (s, .error err)⟩

/-- A connection on which statements execute but every query fails with the same error. -/
def readFailingDriver (err : GoError) : Driver Table :=
  ⟨sqlite.exec, fun s _ => (s, .error err)⟩

/-! ## Vocabulary of the statements -/

/-- The entry a row is read as: `confirmed_at` becomes `time.Unix(confirmed_at, 0)`. -/
def entryOf (r : Row) : mdb.EmailEntry := ⟨r.id, r.email, some (time.Unix r.confirmed_at 0), r.opt_out⟩

/-- The rows with `opt_out = false`. -/
def activeRows (t : Table) : List Row := t.filter (fun r => r.opt_out = false)

/-- No two rows share an email and no two rows share an id. -/
def UniqueKeys (t : Table) : Prop :=
  t.Pairwise (fun a b => a.email ≠ b.email) ∧ t.Pairwise (fun a b => a.id ≠ b.id)

/-- The `(id, email)` pairs of the rows, in table order. -/
def keys (t : Table) : List (Int × String) := t.map (fun r => (r.id, r.email))

/-- The batch as the specification words it: the active rows in ascending id order, the
first `(page-1)*count` of them skipped, at most `count` kept; the product is the
mathematical one. -/
def specGetBatch (t : Table) (page count : Int) : List mdb.EmailEntry :=
  (((sqlite.orderById (activeRows t)).drop ((page - 1) * count).toNat).take count.toNat).map
    entryOf

/-- One step of the store: the rows stay in place and keep id and email, or one row with an
unused email and an unused id is appended. -/
def Evolves (t t1 : Table) : Prop :=
  (∃ f : Row → Row, (∀ r, (f r).id = r.id ∧ (f r).email = r.email) ∧ t1 = t.map f) ∨
  (∃ r : Row, (∀ x ∈ t, x.email ≠ r.email) ∧ (∀ x ∈ t, x.id ≠ r.id) ∧ t1 = t ++ [r])

/-- The tables the five store operations produce, starting from the table `TryCreate`
creates. -/
inductive Reachable : Table → Prop where
  | init : Reachable (mdb.TryCreate none)
  | create (t : Table) (e : String) :
      Reachable t → Reachable (mdb.CreateEmail sqliteDriver t e).1
  | get (t : Table) (e : String) :
      Reachable t → Reachable (mdb.GetEmail sqliteDriver t e).1
  | update (t : Table) (entry : mdb.EmailEntry) :
      Reachable t → Reachable (mdb.UpdateEmail sqliteDriver t entry).1
  | delete (t : Table) (e : String) :
      Reachable t → Reachable (mdb.DeleteEmail sqliteDriver t e).1
  | batch (t : Table) (p : mdb.GetEmailBatchQueryParams) :
      Reachable t → Reachable (mdb.GetEmailBatch sqliteDriver t p).1

/-- A statement as the driver receives it. -/
inductive Stmt where
  | exec (q : ExecStmt)
  | query (q : QueryStmt)
  deriving DecidableEq, Repr

/-- A driver that also records, in order, every statement it is given. -/
def traced {σ : Type} (db : Driver σ) : Driver (σ × List Stmt) :=
  ⟨fun s q => (((db.Exec s.1 q).1, s.2 ++ [.exec q]), (db.Exec s.1 q).2),
   fun s q => (((db.Query s.1 q).1, s.2 ++ [.query q]), (db.Query s.1 q).2)⟩

/-! ## Lemmas on the engine -/

theorem hasEmail_false_of_absent (t : Table) (e : String) (h : ∀ r ∈ t, r.email ≠ e) :
    sqlite.hasEmail t e = false := by
  simp only [sqlite.hasEmail, List.any_eq_false, beq_iff_eq]
  intro r hr
  simpa using h r hr

theorem hasEmail_true_of_present (t : Table) (e : String) (h : ∃ r ∈ t, r.email = e) :
    sqlite.hasEmail t e = true := by
  simp only [sqlite.hasEmail, List.any_eq_true, beq_iff_eq]
  exact h

theorem selectByEmail_absent (t : Table) (e : String) (h : ∀ r ∈ t, r.email ≠ e) :
    sqlite.selectByEmail t e = [] := by
  simp only [sqlite.selectByEmail, List.filter_eq_nil_iff, beq_iff_eq]
  intro r hr
  exact h r hr

theorem selectByEmail_append (t u : Table) (e : String) :
    sqlite.selectByEmail (t ++ u) e = sqlite.selectByEmail t e ++ sqlite.selectByEmail u e := by
  simp [sqlite.selectByEmail]

theorem getEmail_sqlite (t : Table) (e : String) :
    mdb.GetEmail sqliteDriver t e = (t, .ok ((sqlite.selectByEmail t e).head?.map entryOf)) := by
  simp only [mdb.GetEmail, sqliteDriver, sqlite.query]
  cases h : sqlite.selectByEmail t e with
  | nil => rfl
  | cons r rs => rfl

/-! ## C2, C3, C6 -/

/-- C2: in a store with no row for `e`, `CreateEmail(e)` succeeds and a following
`GetEmail(e)` returns a record with `Email = e`, `ConfirmedAt = time.Unix(0,0)` and
`OptOut = false`. -/
theorem createEmail_then_getEmail (t : Table) (e : String) (h : ∀ r ∈ t, r.email ≠ e) :
    ∃ t1 id, mdb.CreateEmail sqliteDriver t e = (t1, none) ∧
      mdb.GetEmail sqliteDriver t1 e = (t1, .ok (some ⟨id, e, some (time.Unix 0 0), false⟩)) := by
  refine ⟨t ++ [⟨sqlite.nextRowid t, e, 0, false⟩], sqlite.nextRowid t, ?_, ?_⟩
  · simp [mdb.CreateEmail, sqliteDriver, sqlite.exec, sqlite.insert, hasEmail_false_of_absent t e h]
  · rw [getEmail_sqlite, selectByEmail_append, selectByEmail_absent t e h]
    simp [sqlite.selectByEmail, entryOf]

theorem createEmail_then_getEmail_witness :
    ∃ t1 id, mdb.CreateEmail sqliteDriver [⟨1, "b@x.com", 7, true⟩] "a@x.com" = (t1, none) ∧
      mdb.GetEmail sqliteDriver t1 "a@x.com"
        = (t1, .ok (some ⟨id, "a@x.com", some (time.Unix 0 0), false⟩)) :=
  createEmail_then_getEmail [⟨1, "b@x.com", 7, true⟩] "a@x.com" (by decide)

/-- C3: in a store that already has a row for `e`, `CreateEmail(e)` returns an error and
the table is exactly what it was (no row changed, none added). -/
theorem createEmail_duplicate (t : Table) (e : String) (h : ∃ r ∈ t, r.email = e) :
    ∃ err, mdb.CreateEmail sqliteDriver t e = (t, some err) := by
  refine ⟨sqlite.uniqueViolation, ?_⟩
  simp [mdb.CreateEmail, sqliteDriver, sqlite.exec, sqlite.insert, hasEmail_true_of_present t e h]

theorem createEmail_duplicate_witness :
    ∃ err, mdb.CreateEmail sqliteDriver [⟨1, "a@x.com", 7, true⟩] "a@x.com"
      = ([⟨1, "a@x.com", 7, true⟩], some err) :=
  createEmail_duplicate [⟨1, "a@x.com", 7, true⟩] "a@x.com" (by decide)

/-- C6: `GetEmail(e)` returns the single row whose email is `e`, with its id, email,
confirmed_at and opt_out; returns `(nil, nil)`, not an error, when no row matches; and
leaves the store as it is. -/
theorem getEmail_spec (t : Table) (e : String) :
    (∀ r ∈ t, r.email = e → (∀ r2 ∈ t, r2.email = e → r2 = r) →
      mdb.GetEmail sqliteDriver t e
        = (t, .ok (some ⟨r.id, r.email, some (time.Unix r.confirmed_at 0), r.opt_out⟩))) ∧
    ((∀ r ∈ t, r.email ≠ e) → mdb.GetEmail sqliteDriver t e = (t, .ok none)) ∧
    (mdb.GetEmail sqliteDriver t e).1 = t := by
  refine ⟨?_, ?_, ?_⟩
  · intro r hr hre huniq
    rw [getEmail_sqlite]
    have hmem : r ∈ sqlite.selectByEmail t e := by
      simp [sqlite.selectByEmail, hr, hre]
    cases hs : sqlite.selectByEmail t e with
    | nil => rw [hs] at hmem; cases hmem
    | cons r0 rs =>
      have h0 : r0 ∈ sqlite.selectByEmail t e := by rw [hs]; exact List.mem_cons_self _ _
      simp only [sqlite.selectByEmail, List.mem_filter, beq_iff_eq] at h0
      have := huniq r0 h0.1 h0.2
      subst this
      rfl
  · intro h
    rw [getEmail_sqlite, selectByEmail_absent t e h]
    rfl
  · rw [getEmail_sqlite]

theorem getEmail_spec_witness :
    mdb.GetEmail sqliteDriver [⟨1, "b@x.com", 7, true⟩, ⟨2, "a@x.com", 9, false⟩] "a@x.com"
      = ([⟨1, "b@x.com", 7, true⟩, ⟨2, "a@x.com", 9, false⟩],
         .ok (some ⟨2, "a@x.com", some (time.Unix 9 0), false⟩)) :=
  (getEmail_spec [⟨1, "b@x.com", 7, true⟩, ⟨2, "a@x.com", 9, false⟩] "a@x.com").1
    ⟨2, "a@x.com", 9, false⟩ (by decide) (by decide) (by decide)

/-! ## More lemmas on the engine -/

theorem lt_nextRowid (t : Table) : ∀ r ∈ t, r.id < sqlite.nextRowid t := by
  have key : ∀ (l : Table), ∀ r ∈ l, ∃ m, sqlite.maxRowid l = some m ∧ r.id ≤ m := by
    intro l
    induction l with
    | nil => intro r hr; cases hr
    | cons a l ih =>
      intro r hr
      cases hm : sqlite.maxRowid l with
      | none =>
        rcases List.mem_cons.1 hr with h | h
        · exact ⟨a.id, by simp [sqlite.maxRowid, hm], by rw [h]⟩
        · obtain ⟨m, hm2, _⟩ := ih r h
          rw [hm] at hm2
          cases hm2
      | some m =>
        refine ⟨max a.id m, by simp [sqlite.maxRowid, hm], ?_⟩
        rcases List.mem_cons.1 hr with h | h
        · rw [h]; exact le_max_left _ _
        · obtain ⟨m2, hm2, hle⟩ := ih r h
          rw [hm] at hm2
          cases hm2
          exact le_trans hle (le_max_right _ _)
  intro r hr
  obtain ⟨m, hm, hle⟩ := key t r hr
  simp only [sqlite.nextRowid, hm]
  omega

theorem selectByEmail_map (t : Table) (e : String) (f : Row → Row)
    (hf : ∀ r, (f r).email = r.email) :
    sqlite.selectByEmail (t.map f) e = (sqlite.selectByEmail t e).map f := by
  induction t with
  | nil => rfl
  | cons a t ih =>
    simp only [sqlite.selectByEmail] at ih
    by_cases h : a.email = e
    · simp [sqlite.selectByEmail, List.filter_cons, hf, h, ih]
    · simp [sqlite.selectByEmail, List.filter_cons, hf, h, ih]

theorem selectByEmail_head_of_present (t : Table) (e : String) (h : ∃ r ∈ t, r.email = e) :
    ∃ r0 ∈ t, r0.email = e ∧ (sqlite.selectByEmail t e).head? = some r0 := by
  obtain ⟨r, hr, hre⟩ := h
  have hmem : r ∈ sqlite.selectByEmail t e := by
    simp [sqlite.selectByEmail, hr, hre]
  cases hs : sqlite.selectByEmail t e with
  | nil => rw [hs] at hmem; cases hmem
  | cons r0 rs =>
    have h0 : r0 ∈ sqlite.selectByEmail t e := by rw [hs]; exact List.mem_cons_self _ _
    simp only [sqlite.selectByEmail, List.mem_filter, beq_iff_eq] at h0
    exact ⟨r0, h0.1, h0.2, rfl⟩

theorem collectEntries_eq (rows : List Row) (acc : List mdb.EmailEntry) :
    mdb.collectEntries rows acc = .ok (acc ++ rows.map entryOf) := by
  induction rows generalizing acc with
  | nil => simp [mdb.collectEntries]
  | cons r rs ih =>
    simp [mdb.collectEntries, mdb.emailEntryFromRow, ih, entryOf]

theorem getEmailBatch_sqlite (t : Table) (p : mdb.GetEmailBatchQueryParams) :
    mdb.GetEmailBatch sqliteDriver t p
      = (t, if mdb.makesliceFails p.Count then .panic .makesliceCap
            else .ok ((sqlite.selectActivePage t p.Count
              (wrapInt64 (wrapInt64 (p.Page - 1) * p.Count))).map entryOf)) := by
  simp only [mdb.GetEmailBatch, sqliteDriver, sqlite.query, collectEntries_eq]
  split <;> simp

theorem limitOffset_subset (rs : List Row) (limit offset : Int) :
    ∀ r ∈ sqlite.limitOffset rs limit offset, r ∈ rs := by
  intro r hr
  simp only [sqlite.limitOffset] at hr
  split at hr
  · exact List.mem_of_mem_drop hr
  · exact List.mem_of_mem_drop (List.mem_of_mem_take hr)

theorem mem_selectActivePage (t : Table) (limit offset : Int) :
    ∀ r ∈ sqlite.selectActivePage t limit offset, r ∈ t ∧ r.opt_out = false := by
  intro r hr
  have h1 := limitOffset_subset _ _ _ r hr
  simp only [sqlite.orderById] at h1
  have h2 := (List.perm_insertionSort _ _).subset h1
  simpa using h2

theorem forall2_map_self (t : Table) (f : Row → Row) (R : Row → Row → Prop)
    (h : ∀ r ∈ t, R r (f r)) : List.Forall₂ R t (t.map f) := by
  induction t with
  | nil => exact List.Forall₂.nil
  | cons a t ih =>
    exact List.Forall₂.cons (h a (List.mem_cons_self _ _))
      (ih (fun r hr => h r (List.mem_cons_of_mem _ hr)))

/-! ## C4, C5 -/

/-- C4: for an entry with a non-nil `ConfirmedAt`, `UpdateEmail` succeeds and is an upsert by
email. With no row for `entry.Email` one row is appended, with a fresh id, that email,
`confirmed_at = entry.ConfirmedAt.Unix()` and `opt_out = entry.OptOut`. Otherwise the table
keeps its rows in place: a row with that email keeps id and email and takes the entry's
`confirmed_at` and `opt_out`, every other row is unchanged. In both cases a following
`GetEmail(entry.Email)` returns that email with `ConfirmedAt = time.Unix(seconds, 0)` and
`OptOut = entry.OptOut`. -/
theorem updateEmail_upsert (t : Table) (entry : mdb.EmailEntry) (c : time.Time)
    (hc : entry.ConfirmedAt = some c) :
    ∃ t1, mdb.UpdateEmail sqliteDriver t entry = (t1, .ok ()) ∧
      ((∀ r ∈ t, r.email ≠ entry.Email) →
        ∃ id, (∀ r ∈ t, r.id ≠ id) ∧ t1 = t ++ [⟨id, entry.Email, c.Unix, entry.OptOut⟩]) ∧
      ((∃ r ∈ t, r.email = entry.Email) →
        List.Forall₂ (fun r r1 => r1.id = r.id ∧ r1.email = r.email ∧
          (r.email = entry.Email → r1.confirmed_at = c.Unix ∧ r1.opt_out = entry.OptOut) ∧
          (r.email ≠ entry.Email → r1 = r)) t t1) ∧
      ∃ id, mdb.GetEmail sqliteDriver t1 entry.Email
        = (t1, .ok (some ⟨id, entry.Email, some (time.Unix c.Unix 0), entry.OptOut⟩)) := by
  by_cases h : ∃ r ∈ t, r.email = entry.Email
  · have hh := hasEmail_true_of_present t entry.Email h
    refine ⟨t.map (fun r => if r.email = entry.Email
        then { r with confirmed_at := c.Unix, opt_out := entry.OptOut } else r), ?_, ?_, ?_, ?_⟩
    · simp [mdb.UpdateEmail, hc, sqliteDriver, sqlite.exec, sqlite.upsert, hh]
    · intro habs
      obtain ⟨r, hr, hre⟩ := h
      exact absurd hre (habs r hr)
    · intro _
      apply forall2_map_self
      intro r _
      by_cases hre : r.email = entry.Email
      · simp [hre]
      · simp [hre]
    · obtain ⟨r0, _, hr0e, hhead⟩ := selectByEmail_head_of_present t entry.Email h
      refine ⟨r0.id, ?_⟩
      rw [getEmail_sqlite, selectByEmail_map]
      · simp [hhead, hr0e, entryOf]
      · intro r
        by_cases hre : r.email = entry.Email
        · simp [hre]
        · simp [hre]
  · have habs : ∀ r ∈ t, r.email ≠ entry.Email := fun r hr hre => h ⟨r, hr, hre⟩
    have hh := hasEmail_false_of_absent t entry.Email habs
    refine ⟨t ++ [⟨sqlite.nextRowid t, entry.Email, c.Unix, entry.OptOut⟩], ?_, ?_, ?_, ?_⟩
    · simp [mdb.UpdateEmail, hc, sqliteDriver, sqlite.exec, sqlite.upsert, hh]
    · intro _
      exact ⟨sqlite.nextRowid t, fun r hr => ne_of_lt (lt_nextRowid t r hr), rfl⟩
    · intro hex
      exact absurd hex h
    · refine ⟨sqlite.nextRowid t, ?_⟩
      rw [getEmail_sqlite, selectByEmail_append, selectByEmail_absent t entry.Email habs]
      simp [sqlite.selectByEmail, entryOf]

theorem updateEmail_upsert_witness :
    ∃ t1, mdb.UpdateEmail sqliteDriver [⟨1, "a@x.com", 0, false⟩, ⟨2, "b@x.com", 0, false⟩]
        ⟨99, "a@x.com", some ⟨1700000000, 5⟩, true⟩ = (t1, .ok ()) ∧
      t1 = [⟨1, "a@x.com", 1700000000, true⟩, ⟨2, "b@x.com", 0, false⟩] ∧
      mdb.GetEmail sqliteDriver t1 "a@x.com"
        = (t1, .ok (some ⟨1, "a@x.com", some ⟨1700000000, 0⟩, true⟩)) := by
  obtain ⟨t1, h1, _, _, _⟩ :=
    updateEmail_upsert [⟨1, "a@x.com", 0, false⟩, ⟨2, "b@x.com", 0, false⟩]
      ⟨99, "a@x.com", some ⟨1700000000, 5⟩, true⟩ ⟨1700000000, 5⟩ rfl
  refine ⟨t1, h1, ?_⟩
  have h2 : t1 = [⟨1, "a@x.com", 1700000000, true⟩, ⟨2, "b@x.com", 0, false⟩] := by
    have h3 : mdb.UpdateEmail sqliteDriver [⟨1, "a@x.com", 0, false⟩, ⟨2, "b@x.com", 0, false⟩]
        ⟨99, "a@x.com", some ⟨1700000000, 5⟩, true⟩
        = ([⟨1, "a@x.com", 1700000000, true⟩, ⟨2, "b@x.com", 0, false⟩], .ok ()) := by decide
    rw [h3] at h1
    exact (congrArg Prod.fst h1).symm
  subst h2
  exact ⟨rfl, rfl⟩

/-- C5: `DeleteEmail(e)` returns no error. Afterwards the table keeps its rows in place: a row
with email `e` has `opt_out = true` and is otherwise unchanged, every other row is unchanged
(so the table is unchanged when no row matches). A row with email `e` is still returned by
`GetEmail(e)`, now with `OptOut = true`, and no result of `GetEmailBatch`, for any
parameters, contains a record with email `e`. -/
theorem deleteEmail_soft (t : Table) (e : String) :
    ∃ t1, mdb.DeleteEmail sqliteDriver t e = (t1, none) ∧
      List.Forall₂ (fun r r1 =>
        (r.email = e → r1 = { r with opt_out := true }) ∧ (r.email ≠ e → r1 = r)) t t1 ∧
      ((∃ r ∈ t, r.email = e) → ∃ r0 ∈ t, r0.email = e ∧
        mdb.GetEmail sqliteDriver t1 e
          = (t1, .ok (some ⟨r0.id, e, some (time.Unix r0.confirmed_at 0), true⟩))) ∧
      (∀ params es, (mdb.GetEmailBatch sqliteDriver t1 params).2 = .ok es →
        ∀ x ∈ es, x.Email ≠ e) ∧
      ((∀ r ∈ t, r.email ≠ e) → t1 = t) := by
  refine ⟨t.map (fun r => if r.email = e then { r with opt_out := true } else r),
    ?_, ?_, ?_, ?_, ?_⟩
  · simp [mdb.DeleteEmail, sqliteDriver, sqlite.exec, sqlite.setOptOut]
  · apply forall2_map_self
    intro r _
    by_cases hre : r.email = e
    · simp [hre]
    · simp [hre]
  · intro h
    obtain ⟨r0, hr0, hr0e, hhead⟩ := selectByEmail_head_of_present t e h
    refine ⟨r0, hr0, hr0e, ?_⟩
    rw [getEmail_sqlite, selectByEmail_map]
    · simp [hhead, hr0e, entryOf]
    · intro r
      by_cases hre : r.email = e
      · simp [hre]
      · simp [hre]
  · intro params es hres x hx
    rw [getEmailBatch_sqlite] at hres
    simp only at hres
    split at hres
    · cases hres
    · injection hres with hres
      subst hres
      obtain ⟨r, hr, hrx⟩ := List.mem_map.1 hx
      obtain ⟨hmem, hact⟩ := mem_selectActivePage _ _ _ r hr
      obtain ⟨r2, _, hr2⟩ := List.mem_map.1 hmem
      subst hrx
      intro hxe
      by_cases hre : r2.email = e
      · rw [if_pos hre] at hr2
        rw [← hr2] at hact
        simp at hact
      · rw [if_neg hre] at hr2
        rw [← hr2] at hxe
        exact hre hxe
  · intro habs
    conv_rhs => rw [← List.map_id t]
    apply List.map_congr_left
    intro r hr
    simp [habs r hr]

theorem deleteEmail_soft_witness :
    ∃ t1, mdb.DeleteEmail sqliteDriver [⟨1, "a@x.com", 3, false⟩, ⟨2, "b@x.com", 0, false⟩]
        "a@x.com" = (t1, none) ∧
      (∀ params es, (mdb.GetEmailBatch sqliteDriver t1 params).2 = .ok es →
        ∀ x ∈ es, x.Email ≠ "a@x.com") := by
  obtain ⟨t1, h1, _, _, h4, _⟩ :=
    deleteEmail_soft [⟨1, "a@x.com", 3, false⟩, ⟨2, "b@x.com", 0, false⟩] "a@x.com"
  exact ⟨t1, h1, h4⟩

/-! ## C9, C10 -/

theorem evolves_refl (t : Table) : Evolves t t :=
  Or.inl ⟨id, fun _ => ⟨rfl, rfl⟩, (List.map_id t).symm⟩

theorem evolves_createEmail (t : Table) (e : String) :
    Evolves t (mdb.CreateEmail sqliteDriver t e).1 := by
  by_cases h : ∃ r ∈ t, r.email = e
  · have hh := hasEmail_true_of_present t e h
    have : (mdb.CreateEmail sqliteDriver t e).1 = t := by
      simp [mdb.CreateEmail, sqliteDriver, sqlite.exec, sqlite.insert, hh]
    rw [this]
    exact evolves_refl t
  · have habs : ∀ r ∈ t, r.email ≠ e := fun r hr hre => h ⟨r, hr, hre⟩
    have hh := hasEmail_false_of_absent t e habs
    have : (mdb.CreateEmail sqliteDriver t e).1 = t ++ [⟨sqlite.nextRowid t, e, 0, false⟩] := by
      simp [mdb.CreateEmail, sqliteDriver, sqlite.exec, sqlite.insert, hh]
    rw [this]
    exact Or.inr ⟨_, habs, fun r hr => ne_of_lt (lt_nextRowid t r hr), rfl⟩

theorem evolves_updateEmail (t : Table) (entry : mdb.EmailEntry) :
    Evolves t (mdb.UpdateEmail sqliteDriver t entry).1 := by
  cases hc : entry.ConfirmedAt with
  | none =>
    have : (mdb.UpdateEmail sqliteDriver t entry).1 = t := by simp [mdb.UpdateEmail, hc]
    rw [this]
    exact evolves_refl t
  | some c =>
    by_cases h : ∃ r ∈ t, r.email = entry.Email
    · have hh := hasEmail_true_of_present t entry.Email h
      have : (mdb.UpdateEmail sqliteDriver t entry).1
          = t.map (fun r => if r.email = entry.Email
              then { r with confirmed_at := c.Unix, opt_out := entry.OptOut } else r) := by
        simp [mdb.UpdateEmail, hc, sqliteDriver, sqlite.exec, sqlite.upsert, hh]
      rw [this]
      refine Or.inl ⟨_, fun r => ?_, rfl⟩
      by_cases hre : r.email = entry.Email
      · simp [hre]
      · simp [hre]
    · have habs : ∀ r ∈ t, r.email ≠ entry.Email := fun r hr hre => h ⟨r, hr, hre⟩
      have hh := hasEmail_false_of_absent t entry.Email habs
      have : (mdb.UpdateEmail sqliteDriver t entry).1
          = t ++ [⟨sqlite.nextRowid t, entry.Email, c.Unix, entry.OptOut⟩] := by
        simp [mdb.UpdateEmail, hc, sqliteDriver, sqlite.exec, sqlite.upsert, hh]
      rw [this]
      exact Or.inr ⟨_, habs, fun r hr => ne_of_lt (lt_nextRowid t r hr), rfl⟩

theorem evolves_deleteEmail (t : Table) (e : String) :
    Evolves t (mdb.DeleteEmail sqliteDriver t e).1 := by
  have : (mdb.DeleteEmail sqliteDriver t e).1
      = t.map (fun r => if r.email = e then { r with opt_out := true } else r) := by
    simp [mdb.DeleteEmail, sqliteDriver, sqlite.exec, sqlite.setOptOut]
  rw [this]
  refine Or.inl ⟨_, fun r => ?_, rfl⟩
  by_cases hre : r.email = e
  · simp [hre]
  · simp [hre]

theorem evolves_getEmail (t : Table) (e : String) :
    Evolves t (mdb.GetEmail sqliteDriver t e).1 := by
  rw [getEmail_sqlite]
  exact evolves_refl t

theorem evolves_getEmailBatch (t : Table) (p : mdb.GetEmailBatchQueryParams) :
    Evolves t (mdb.GetEmailBatch sqliteDriver t p).1 := by
  rw [getEmailBatch_sqlite]
  exact evolves_refl t

theorem uniqueKeys_of_evolves (t t1 : Table) (h : Evolves t t1) (hu : UniqueKeys t) :
    UniqueKeys t1 := by
  rcases h with ⟨f, hf, rfl⟩ | ⟨r, he, hi, rfl⟩
  · constructor
    · rw [List.pairwise_map]
      exact hu.1.imp (fun {a b} hab => by rw [(hf a).2, (hf b).2]; exact hab)
    · rw [List.pairwise_map]
      exact hu.2.imp (fun {a b} hab => by rw [(hf a).1, (hf b).1]; exact hab)
  · constructor
    · rw [List.pairwise_append]
      refine ⟨hu.1, List.pairwise_singleton _ _, ?_⟩
      intro a ha b hb
      rw [List.mem_singleton.1 hb]
      exact he a ha
    · rw [List.pairwise_append]
      refine ⟨hu.2, List.pairwise_singleton _ _, ?_⟩
      intro a ha b hb
      rw [List.mem_singleton.1 hb]
      exact hi a ha

theorem keys_of_evolves (t t1 : Table) (h : Evolves t t1) :
    ∃ added, keys t1 = keys t ++ added := by
  rcases h with ⟨f, hf, rfl⟩ | ⟨r, _, _, rfl⟩
  · refine ⟨[], ?_⟩
    simp only [keys, List.map_map, List.append_nil]
    apply List.map_congr_left
    intro r _
    simp [(hf r).1, (hf r).2]
  · exact ⟨[(r.id, r.email)], by simp [keys]⟩

theorem evolves_of_op (t : Table) :
    (∀ e, Evolves t (mdb.CreateEmail sqliteDriver t e).1) ∧
    (∀ e, Evolves t (mdb.GetEmail sqliteDriver t e).1) ∧
    (∀ entry, Evolves t (mdb.UpdateEmail sqliteDriver t entry).1) ∧
    (∀ e, Evolves t (mdb.DeleteEmail sqliteDriver t e).1) ∧
    (∀ p, Evolves t (mdb.GetEmailBatch sqliteDriver t p).1) :=
  ⟨evolves_createEmail t, evolves_getEmail t, evolves_updateEmail t, evolves_deleteEmail t,
    evolves_getEmailBatch t⟩

/-- C9: uniqueness of emails and of ids is an invariant of the store. If it holds before
`CreateEmail`, `GetEmail`, `UpdateEmail`, `DeleteEmail` or `GetEmailBatch`, it holds after,
whatever the operation returns; hence it holds in every table reachable from the empty
one. -/
theorem uniqueKeys_invariant :
    (∀ t : Table, UniqueKeys t →
      (∀ e, UniqueKeys (mdb.CreateEmail sqliteDriver t e).1) ∧
      (∀ e, UniqueKeys (mdb.GetEmail sqliteDriver t e).1) ∧
      (∀ entry, UniqueKeys (mdb.UpdateEmail sqliteDriver t entry).1) ∧
      (∀ e, UniqueKeys (mdb.DeleteEmail sqliteDriver t e).1) ∧
      (∀ p, UniqueKeys (mdb.GetEmailBatch sqliteDriver t p).1)) ∧
    (∀ t : Table, Reachable t → UniqueKeys t) := by
  have step : ∀ t : Table, UniqueKeys t →
      (∀ e, UniqueKeys (mdb.CreateEmail sqliteDriver t e).1) ∧
      (∀ e, UniqueKeys (mdb.GetEmail sqliteDriver t e).1) ∧
      (∀ entry, UniqueKeys (mdb.UpdateEmail sqliteDriver t entry).1) ∧
      (∀ e, UniqueKeys (mdb.DeleteEmail sqliteDriver t e).1) ∧
      (∀ p, UniqueKeys (mdb.GetEmailBatch sqliteDriver t p).1) := by
    intro t hu
    obtain ⟨h1, h2, h3, h4, h5⟩ := evolves_of_op t
    exact ⟨fun e => uniqueKeys_of_evolves _ _ (h1 e) hu,
      fun e => uniqueKeys_of_evolves _ _ (h2 e) hu,
      fun e => uniqueKeys_of_evolves _ _ (h3 e) hu,
      fun e => uniqueKeys_of_evolves _ _ (h4 e) hu,
      fun p => uniqueKeys_of_evolves _ _ (h5 p) hu⟩
  refine ⟨step, ?_⟩
  intro t hr
  induction hr with
  | init => exact ⟨List.Pairwise.nil, List.Pairwise.nil⟩
  | create t e _ ih => exact (step t ih).1 e
  | get t e _ ih => exact (step t ih).2.1 e
  | update t entry _ ih => exact (step t ih).2.2.1 entry
  | delete t e _ ih => exact (step t ih).2.2.2.1 e
  | batch t p _ ih => exact (step t ih).2.2.2.2 p

theorem uniqueKeys_invariant_witness :
    UniqueKeys [⟨1, "a@x.com", 0, false⟩, ⟨2, "b@x.com", 0, true⟩] ∧
    UniqueKeys (mdb.CreateEmail sqliteDriver
      [⟨1, "a@x.com", 0, false⟩, ⟨2, "b@x.com", 0, true⟩] "a@x.com").1 ∧
    UniqueKeys (mdb.UpdateEmail sqliteDriver
      [⟨1, "a@x.com", 0, false⟩, ⟨2, "b@x.com", 0, true⟩] ⟨0, "c@x.com", some ⟨5, 0⟩, false⟩).1 :=
  have hu : UniqueKeys [⟨1, "a@x.com", 0, false⟩, ⟨2, "b@x.com", 0, true⟩] := by
    constructor <;> simp
  ⟨hu, (uniqueKeys_invariant.1 _ hu).1 "a@x.com",
    (uniqueKeys_invariant.1 _ hu).2.2.1 ⟨0, "c@x.com", some ⟨5, 0⟩, false⟩⟩

/-- C10: no operation removes a row or changes an id. After `CreateEmail`, `GetEmail`,
`UpdateEmail`, `DeleteEmail` or `GetEmailBatch` the `(id, email)` pairs of the table are
those from before, in the same places, followed by the pairs of added rows; so every row
from before is still there with its id and email, and the row count does not decrease. -/
theorem rows_never_removed (t : Table) :
    ∀ t1 : Table,
      ((∃ e, t1 = (mdb.CreateEmail sqliteDriver t e).1) ∨
       (∃ e, t1 = (mdb.GetEmail sqliteDriver t e).1) ∨
       (∃ entry, t1 = (mdb.UpdateEmail sqliteDriver t entry).1) ∨
       (∃ e, t1 = (mdb.DeleteEmail sqliteDriver t e).1) ∨
       (∃ p, t1 = (mdb.GetEmailBatch sqliteDriver t p).1)) →
      (∃ added, keys t1 = keys t ++ added) ∧
      (∀ r ∈ t, ∃ r1 ∈ t1, r1.id = r.id ∧ r1.email = r.email) ∧
      t.length ≤ t1.length := by
  intro t1 hop
  have hev : Evolves t t1 := by
    obtain ⟨h1, h2, h3, h4, h5⟩ := evolves_of_op t
    rcases hop with ⟨e, rfl⟩ | ⟨e, rfl⟩ | ⟨e, rfl⟩ | ⟨e, rfl⟩ | ⟨p, rfl⟩
    · exact h1 e
    · exact h2 e
    · exact h3 e
    · exact h4 e
    · exact h5 p
  obtain ⟨added, hk⟩ := keys_of_evolves t t1 hev
  refine ⟨⟨added, hk⟩, ?_, ?_⟩
  · intro r hr
    have hmem : (r.id, r.email) ∈ keys t1 := by
      rw [hk]
      exact List.mem_append_left _ (List.mem_map.2 ⟨r, hr, rfl⟩)
    obtain ⟨r1, hr1, hkey⟩ := List.mem_map.1 hmem
    simp only [Prod.mk.injEq] at hkey
    exact ⟨r1, hr1, hkey.1, hkey.2⟩
  · have hl := congrArg List.length hk
    simp only [keys, List.length_map, List.length_append] at hl
    omega

theorem rows_never_removed_witness :
    (∃ added, keys (mdb.DeleteEmail sqliteDriver
        [⟨1, "a@x.com", 0, false⟩, ⟨2, "b@x.com", 0, true⟩] "a@x.com").1
      = keys [⟨1, "a@x.com", 0, false⟩, ⟨2, "b@x.com", 0, true⟩] ++ added) ∧
    List.length ([⟨1, "a@x.com", 0, false⟩, ⟨2, "b@x.com", 0, true⟩] : Table)
      ≤ (mdb.DeleteEmail sqliteDriver
        [⟨1, "a@x.com", 0, false⟩, ⟨2, "b@x.com", 0, true⟩] "a@x.com").1.length :=
  have h := rows_never_removed [⟨1, "a@x.com", 0, false⟩, ⟨2, "b@x.com", 0, true⟩]
    (mdb.DeleteEmail sqliteDriver
      [⟨1, "a@x.com", 0, false⟩, ⟨2, "b@x.com", 0, true⟩] "a@x.com").1
    (Or.inr (Or.inr (Or.inr (Or.inl ⟨"a@x.com", rfl⟩))))
  ⟨h.1, h.2.2⟩

/-! ## C1 -/

theorem wrapInt64_of_range (x : Int) (h0 : -(2 ^ 63) ≤ x) (h1 : x < 2 ^ 63) :
    wrapInt64 x = x := by
  unfold wrapInt64
  omega

theorem activeRows_eq (t : Table) :
    t.filter (fun r => r.opt_out == false) = activeRows t := by
  unfold activeRows
  congr 1

theorem orderById_perm (rs : List Row) : (sqlite.orderById rs).Perm rs :=
  List.perm_insertionSort _ _

theorem orderById_sorted (rs : List Row) :
    (sqlite.orderById rs).Sorted (fun a b => a.id ≤ b.id) := by
  haveI : IsTotal Row (fun a b => a.id ≤ b.id) := ⟨fun a b => le_total a.id b.id⟩
  haveI : IsTrans Row (fun a b => a.id ≤ b.id) := ⟨fun _ _ _ h1 h2 => le_trans h1 h2⟩
  exact List.sorted_insertionSort _ _

theorem orderById_eq_of_ascending (rs L : List Row) (hp : rs.Perm L)
    (hs : L.Pairwise (fun x y => x.id < y.id)) : sqlite.orderById rs = L := by
  haveI : IsAntisymm Row (fun x y => x.id < y.id) :=
    ⟨fun x y h1 h2 => absurd h1 (not_lt.2 (le_of_lt h2))⟩
  have hperm : (sqlite.orderById rs).Perm L := (orderById_perm rs).trans hp
  have hne : (sqlite.orderById rs).Pairwise (fun x y => x.id ≠ y.id) := by
    have hsym : Symmetric (fun x y : Row => x.id ≠ y.id) := fun _ _ h => Ne.symm h
    exact (hperm.pairwise_iff (fun {x y} h => hsym h)).2 (hs.imp (fun {a b} h => ne_of_lt h))
  have hlt : (sqlite.orderById rs).Pairwise (fun x y => x.id < y.id) :=
    ((orderById_sorted rs).and hne).imp (fun {a b} h => lt_of_le_of_ne h.1 h.2)
  exact List.eq_of_perm_of_sorted hperm hlt hs

theorem getEmailBatch_ok_iff (t : Table) (p : mdb.GetEmailBatchQueryParams)
    (es : List mdb.EmailEntry) (h : (mdb.GetEmailBatch sqliteDriver t p).2 = .ok es) :
    es = (sqlite.selectActivePage t p.Count
      (wrapInt64 (wrapInt64 (p.Page - 1) * p.Count))).map entryOf := by
  rw [getEmailBatch_sqlite] at h
  simp only at h
  split at h
  · cases h
  · injection h with h
    exact h.symm

theorem makesliceFails_false (count : Int) (h0 : 0 ≤ count)
    (h1 : mdb.sizeofEmailEntry * count ≤ mdb.maxAlloc) : mdb.makesliceFails count = false := by
  simp only [mdb.makesliceFails, Bool.or_eq_false_iff, decide_eq_false_iff_not, not_lt]
  exact ⟨h0, h1⟩

/-- C1 (counterexample): with one active row, page `2^62 + 1` and count 4, the offset
`(page-1)*count = 2^64` wraps to 0 in 64-bit arithmetic, so the row is returned, whereas
skipping the first `(page-1)*count` active rows leaves nothing. -/
theorem getEmailBatch_offset_wraps :
    (1 : Int) ≤ 4611686018427387905 ∧ (1 : Int) ≤ 4 ∧
    (mdb.GetEmailBatch sqliteDriver [⟨1, "a@x.com", 0, false⟩] ⟨4611686018427387905, 4⟩).2
      = .ok [⟨1, "a@x.com", some (time.Unix 0 0), false⟩] ∧
    specGetBatch [⟨1, "a@x.com", 0, false⟩] 4611686018427387905 4 = [] ∧
    (mdb.GetEmailBatch sqliteDriver [⟨1, "a@x.com", 0, false⟩] ⟨4611686018427387905, 4⟩).2
      ≠ .ok (specGetBatch [⟨1, "a@x.com", 0, false⟩] 4611686018427387905 4) := by
  refine ⟨by decide, by decide, by decide, by decide, by decide⟩

/-- C1 (amended): for `page ≥ 1` and `count ≥ 1` whose product `(page-1)*count` is below
`2^63`, a successful `GetEmailBatch(page, count)` returns exactly the entries of the rows
with `opt_out = false`, in ascending id order, after skipping the first `(page-1)*count` of
them and keeping at most `count`; the call is successful whenever a slice of capacity
`count` can be allocated. For all parameters no returned record has `OptOut = true`. With
five active rows of ascending ids, `GetEmailBatch(1,2)` returns the first two and
`GetEmailBatch(2,2)` the next two. -/
theorem getEmailBatch_page :
    (∀ (t : Table) (page count : Int), 1 ≤ page → 1 ≤ count → (page - 1) * count < 2 ^ 63 →
      ∀ es, (mdb.GetEmailBatch sqliteDriver t ⟨page, count⟩).2 = .ok es →
        ∃ L : List Row, L.Perm (activeRows t) ∧ L.Sorted (fun a b => a.id ≤ b.id) ∧
          es = ((L.drop ((page - 1) * count).toNat).take count.toNat).map entryOf) ∧
    (∀ (t : Table) (page count : Int), 0 ≤ count →
      mdb.sizeofEmailEntry * count ≤ mdb.maxAlloc →
        ∃ es, mdb.GetEmailBatch sqliteDriver t ⟨page, count⟩ = (t, .ok es)) ∧
    (∀ (t : Table) (params : mdb.GetEmailBatchQueryParams) (es : List mdb.EmailEntry),
      (mdb.GetEmailBatch sqliteDriver t params).2 = .ok es → ∀ x ∈ es, x.OptOut = false) ∧
    (∀ (t : Table) (a b c d e : Row), (activeRows t).Perm [a, b, c, d, e] →
      a.id < b.id → b.id < c.id → c.id < d.id → d.id < e.id →
        mdb.GetEmailBatch sqliteDriver t ⟨1, 2⟩ = (t, .ok [entryOf a, entryOf b]) ∧
        mdb.GetEmailBatch sqliteDriver t ⟨2, 2⟩ = (t, .ok [entryOf c, entryOf d])) := by
  refine ⟨?_, ?_, ?_, ?_⟩
  · intro t page count hp hc hoff es hres
    have hes := getEmailBatch_ok_iff t ⟨page, count⟩ es hres
    simp only at hes
    have hp0 : 0 ≤ page - 1 := by omega
    have hle : page - 1 ≤ (page - 1) * count := le_mul_of_one_le_right hp0 hc
    have hw1 : wrapInt64 (page - 1) = page - 1 :=
      wrapInt64_of_range _ (by omega) (by omega)
    have hprod0 : 0 ≤ (page - 1) * count := le_trans hp0 hle
    have hw2 : wrapInt64 ((page - 1) * count) = (page - 1) * count :=
      wrapInt64_of_range _ (by omega) hoff
    rw [hw1, hw2] at hes
    refine ⟨sqlite.orderById (activeRows t), orderById_perm _, orderById_sorted _, ?_⟩
    rw [hes]
    have hnl : ¬ count < 0 := by omega
    simp only [sqlite.selectActivePage, sqlite.limitOffset, activeRows_eq, if_neg hnl]
  · intro t page count h0 h1
    refine ⟨(sqlite.selectActivePage t count
      (wrapInt64 (wrapInt64 (page - 1) * count))).map entryOf, ?_⟩
    rw [getEmailBatch_sqlite]
    simp only [makesliceFails_false count h0 h1]
    rfl
  · intro t params es hres x hx
    have hes := getEmailBatch_ok_iff t params es hres
    subst hes
    obtain ⟨r, hr, hrx⟩ := List.mem_map.1 hx
    obtain ⟨_, hact⟩ := mem_selectActivePage _ _ _ r hr
    rw [← hrx]
    exact hact
  · intro t a b c d e hperm hab hbc hcd hde
    have hsorted : sqlite.orderById (activeRows t) = [a, b, c, d, e] := by
      apply orderById_eq_of_ascending _ _ hperm
      simp only [List.pairwise_cons, List.mem_cons, List.mem_singleton, List.not_mem_nil,
        forall_eq_or_imp, forall_eq, List.Pairwise.nil, and_true, IsEmpty.forall_iff,
        implies_true]
      omega
    have hw0 : wrapInt64 (wrapInt64 (1 - 1) * 2) = 0 := by decide
    have hw2 : wrapInt64 (wrapInt64 (2 - 1) * 2) = 2 := by decide
    have hm : mdb.makesliceFails 2 = false := by decide
    constructor
    · rw [getEmailBatch_sqlite]
      simp only [hm, hw0, sqlite.selectActivePage, activeRows_eq, hsorted, sqlite.limitOffset]
      rfl
    · rw [getEmailBatch_sqlite]
      simp only [hm, hw2, sqlite.selectActivePage, activeRows_eq, hsorted, sqlite.limitOffset]
      rfl

theorem getEmailBatch_page_witness :
    (∃ L : List Row,
      L.Perm (activeRows
        [⟨1, "a@x.com", 0, false⟩, ⟨2, "b@x.com", 0, false⟩, ⟨3, "c@x.com", 0, true⟩,
         ⟨4, "d@x.com", 0, false⟩, ⟨5, "e@x.com", 0, false⟩, ⟨6, "f@x.com", 0, false⟩]) ∧
      L.Sorted (fun a b => a.id ≤ b.id) ∧
      [entryOf ⟨4, "d@x.com", 0, false⟩, entryOf ⟨5, "e@x.com", 0, false⟩]
        = ((L.drop ((2 - 1) * 2 : Int).toNat).take (2 : Int).toNat).map entryOf) ∧
    mdb.GetEmailBatch sqliteDriver
        [⟨1, "a@x.com", 0, false⟩, ⟨2, "b@x.com", 0, false⟩, ⟨3, "c@x.com", 0, true⟩,
         ⟨4, "d@x.com", 0, false⟩, ⟨5, "e@x.com", 0, false⟩, ⟨6, "f@x.com", 0, false⟩] ⟨1, 2⟩
      = ([⟨1, "a@x.com", 0, false⟩, ⟨2, "b@x.com", 0, false⟩, ⟨3, "c@x.com", 0, true⟩,
          ⟨4, "d@x.com", 0, false⟩, ⟨5, "e@x.com", 0, false⟩, ⟨6, "f@x.com", 0, false⟩],
         .ok [entryOf ⟨1, "a@x.com", 0, false⟩, entryOf ⟨2, "b@x.com", 0, false⟩]) ∧
    mdb.GetEmailBatch sqliteDriver
        [⟨1, "a@x.com", 0, false⟩, ⟨2, "b@x.com", 0, false⟩, ⟨3, "c@x.com", 0, true⟩,
         ⟨4, "d@x.com", 0, false⟩, ⟨5, "e@x.com", 0, false⟩, ⟨6, "f@x.com", 0, false⟩] ⟨2, 2⟩
      = ([⟨1, "a@x.com", 0, false⟩, ⟨2, "b@x.com", 0, false⟩, ⟨3, "c@x.com", 0, true⟩,
          ⟨4, "d@x.com", 0, false⟩, ⟨5, "e@x.com", 0, false⟩, ⟨6, "f@x.com", 0, false⟩],
         .ok [entryOf ⟨4, "d@x.com", 0, false⟩, entryOf ⟨5, "e@x.com", 0, false⟩]) :=
  ⟨getEmailBatch_page.1
      [⟨1, "a@x.com", 0, false⟩, ⟨2, "b@x.com", 0, false⟩, ⟨3, "c@x.com", 0, true⟩,
       ⟨4, "d@x.com", 0, false⟩, ⟨5, "e@x.com", 0, false⟩, ⟨6, "f@x.com", 0, false⟩]
      2 2 (by decide) (by decide) (by norm_num)
      [entryOf ⟨4, "d@x.com", 0, false⟩, entryOf ⟨5, "e@x.com", 0, false⟩] (by decide),
    getEmailBatch_page.2.2.2
      [⟨1, "a@x.com", 0, false⟩, ⟨2, "b@x.com", 0, false⟩, ⟨3, "c@x.com", 0, true⟩,
       ⟨4, "d@x.com", 0, false⟩, ⟨5, "e@x.com", 0, false⟩, ⟨6, "f@x.com", 0, false⟩]
      ⟨1, "a@x.com", 0, false⟩ ⟨2, "b@x.com", 0, false⟩ ⟨4, "d@x.com", 0, false⟩
      ⟨5, "e@x.com", 0, false⟩ ⟨6, "f@x.com", 0, false⟩
      (List.Perm.refl _) (by decide) (by decide) (by decide) (by decide)⟩

/-! ## C7, C8 -/

theorem returnErr_eq {σ : Type} (timeOk : time.Time → Bool) (s : σ) (err : GoError)
    (code : Nat) :
    jsonapi.returnErr timeOk {} s err code
      = ⟨⟨some "application/json; charset=utf-8", some code, [.errorMsg err.msg]⟩, s, none⟩ := by
  rfl

theorem returnJson_fetch_error {σ : Type} (timeOk : time.Time → Bool) (db : Driver σ)
    (s s1 : σ) (email : String) (err : GoError)
    (h : mdb.GetEmail db s email = (s1, .error err)) :
    jsonapi.returnJson timeOk {} s (jsonapi.fetch db email)
      = ⟨⟨some "application/json; charset=utf-8", some 500, [.errorValue err]⟩, s1, none⟩ := by
  simp only [jsonapi.returnJson, jsonapi.fetch, h]
  rfl

theorem returnJson_fetchBatch_panic {σ : Type} (timeOk : time.Time → Bool) (db : Driver σ)
    (s s1 : σ) (q : mdb.GetEmailBatchQueryParams) (p : Panic)
    (h : mdb.GetEmailBatch db s q = (s1, .panic p)) :
    jsonapi.returnJson timeOk {} s (jsonapi.fetchBatch db q)
      = ⟨⟨some "application/json; charset=utf-8", none, []⟩, s1, some p⟩ := by
  simp only [jsonapi.returnJson, jsonapi.fetchBatch, h]
  rfl

theorem returnJson_fetchBatch_err {σ : Type} (timeOk : time.Time → Bool) (db : Driver σ)
    (s s1 : σ) (q : mdb.GetEmailBatchQueryParams) (err : GoError)
    (h : mdb.GetEmailBatch db s q = (s1, .err err)) :
    jsonapi.returnJson timeOk {} s (jsonapi.fetchBatch db q)
      = ⟨⟨some "application/json; charset=utf-8", some 500, [.errorValue err]⟩, s1, none⟩ := by
  simp only [jsonapi.returnJson, jsonapi.fetchBatch, h]
  rfl

theorem returnJson_fetchBatch_ok {σ : Type} (timeOk : time.Time → Bool) (db : Driver σ)
    (s s1 : σ) (q : mdb.GetEmailBatchQueryParams) (es : List mdb.EmailEntry)
    (h : mdb.GetEmailBatch db s q = (s1, .ok es)) :
    jsonapi.returnJson timeOk {} s (jsonapi.fetchBatch db q)
      = if es.all (jsonapi.entryOk timeOk)
        then ⟨⟨some "application/json; charset=utf-8", some 200, [.entries es]⟩, s1, none⟩
        else ⟨⟨some "application/json; charset=utf-8", some 500, []⟩, s1, none⟩ := by
  simp only [jsonapi.returnJson, jsonapi.fetchBatch, h, jsonapi.jsonMarshal]
  by_cases hall : es.all (jsonapi.entryOk timeOk) = true
  · simp only [hall, if_true]
    rfl
  · simp only [hall]
    rfl

theorem returnJson_fetchBatch_cases {σ : Type} (timeOk : time.Time → Bool) (db : Driver σ)
    (s : σ) (q : mdb.GetEmailBatchQueryParams) :
    (jsonapi.returnJson timeOk {} s (jsonapi.fetchBatch db q)).db = (mdb.GetEmailBatch db s q).1 ∧
    (jsonapi.returnJson timeOk {} s (jsonapi.fetchBatch db q)).w.statusCode ≠ 400 ∧
    (∀ err, (mdb.GetEmailBatch db s q).2 = .err err →
      (jsonapi.returnJson timeOk {} s (jsonapi.fetchBatch db q)).w.statusCode = 500 ∧
      (jsonapi.returnJson timeOk {} s (jsonapi.fetchBatch db q)).w.body = [.errorValue err]) ∧
    (∀ es, (mdb.GetEmailBatch db s q).2 = .ok es → es.all (jsonapi.entryOk timeOk) = true →
      (jsonapi.returnJson timeOk {} s (jsonapi.fetchBatch db q)).w.statusCode = 200 ∧
      (jsonapi.returnJson timeOk {} s (jsonapi.fetchBatch db q)).w.body = [.entries es]) := by
  rcases h : mdb.GetEmailBatch db s q with ⟨s1, o⟩
  cases o with
  | panic p =>
    rw [returnJson_fetchBatch_panic timeOk db s s1 q p h]
    refine ⟨rfl, by simp [jsonapi.ResponseWriter.statusCode], ?_, ?_⟩
    · intro err he; cases he
    · intro es he; cases he
  | err e =>
    rw [returnJson_fetchBatch_err timeOk db s s1 q e h]
    refine ⟨rfl, by simp [jsonapi.ResponseWriter.statusCode], ?_, ?_⟩
    · intro err he
      injection he with he
      subst he
      exact ⟨rfl, rfl⟩
    · intro es he; cases he
  | ok es0 =>
    rw [returnJson_fetchBatch_ok timeOk db s s1 q es0 h]
    refine ⟨?_, ?_, ?_, ?_⟩
    · split <;> rfl
    · split <;> simp [jsonapi.ResponseWriter.statusCode]
    · intro err he; cases he
    · intro es he hall
      injection he with he
      subst he
      simp [hall, jsonapi.ResponseWriter.statusCode]

theorem batchHandler_rejects {σ : Type} (timeOk : time.Time → Bool) (db : Driver σ)
    (s : σ) (body : Option mdb.GetEmailBatchQueryParams)
    (h : (jsonapi.fromJson body {}).Page < 1 ∨ (jsonapi.fromJson body {}).Count < 1) :
    jsonapi.GetEmailBatch timeOk db s ⟨"GET", body⟩
      = ⟨⟨some "application/json; charset=utf-8", some 400,
          [.errorMsg jsonapi.batchParamsError.msg]⟩, s, none⟩ := by
  have hc : (jsonapi.fromJson body ({} : mdb.GetEmailBatchQueryParams)).Count ≤ 0 ∨
      (jsonapi.fromJson body ({} : mdb.GetEmailBatchQueryParams)).Page ≤ 0 := by omega
  simp only [jsonapi.GetEmailBatch, ne_eq, not_true_eq_false, if_false, if_pos hc]
  exact returnErr_eq timeOk s jsonapi.batchParamsError 400

theorem batchHandler_accepts {σ : Type} (timeOk : time.Time → Bool) (db : Driver σ)
    (s : σ) (body : Option mdb.GetEmailBatchQueryParams)
    (h : ¬ ((jsonapi.fromJson body {}).Page < 1 ∨ (jsonapi.fromJson body {}).Count < 1)) :
    jsonapi.GetEmailBatch timeOk db s ⟨"GET", body⟩
      = jsonapi.returnJson timeOk {} s (jsonapi.fetchBatch db (jsonapi.fromJson body {})) := by
  have hc : ¬ ((jsonapi.fromJson body ({} : mdb.GetEmailBatchQueryParams)).Count ≤ 0 ∨
      (jsonapi.fromJson body ({} : mdb.GetEmailBatchQueryParams)).Page ≤ 0) := by omega
  simp only [jsonapi.GetEmailBatch, ne_eq, not_true_eq_false, if_false, if_neg hc]

/-- C7: for a GET request to the `GetEmailBatch` handler whose body decodes to
`(Page, Count)`, over any store: if `Page < 1` or `Count < 1` the response is HTTP 400 with
body `{"Err": <message>}` and the store is left untouched (no statement reaches it);
otherwise the store ends in the state `mdb.GetEmailBatch` with exactly that `Page` and
`Count` leaves it in and the response carries that call's result, with a status other
than 400. Hence the 400 error response occurs if and only if `Page < 1` or `Count < 1`. -/
theorem getEmailBatch_handler_validation {σ : Type} (timeOk : time.Time → Bool)
    (db : Driver σ) (s : σ) (body : Option mdb.GetEmailBatchQueryParams) :
    (((jsonapi.fromJson body {}).Page < 1 ∨ (jsonapi.fromJson body {}).Count < 1) →
      (jsonapi.GetEmailBatch timeOk db s ⟨"GET", body⟩).w.statusCode = 400 ∧
      (jsonapi.GetEmailBatch timeOk db s ⟨"GET", body⟩).w.body
        = [.errorMsg "page and count fields are required and must be greater than 0"] ∧
      (jsonapi.GetEmailBatch timeOk db s ⟨"GET", body⟩).db = s ∧
      (jsonapi.GetEmailBatch timeOk db s ⟨"GET", body⟩).panic = none) ∧
    (¬ ((jsonapi.fromJson body {}).Page < 1 ∨ (jsonapi.fromJson body {}).Count < 1) →
      (jsonapi.GetEmailBatch timeOk db s ⟨"GET", body⟩).db
        = (mdb.GetEmailBatch db s (jsonapi.fromJson body {})).1 ∧
      (jsonapi.GetEmailBatch timeOk db s ⟨"GET", body⟩).w.statusCode ≠ 400 ∧
      (∀ err, (mdb.GetEmailBatch db s (jsonapi.fromJson body {})).2 = .err err →
        (jsonapi.GetEmailBatch timeOk db s ⟨"GET", body⟩).w.statusCode = 500 ∧
        (jsonapi.GetEmailBatch timeOk db s ⟨"GET", body⟩).w.body = [.errorValue err]) ∧
      (∀ es, (mdb.GetEmailBatch db s (jsonapi.fromJson body {})).2 = .ok es →
        es.all (jsonapi.entryOk timeOk) = true →
        (jsonapi.GetEmailBatch timeOk db s ⟨"GET", body⟩).w.statusCode = 200 ∧
        (jsonapi.GetEmailBatch timeOk db s ⟨"GET", body⟩).w.body = [.entries es])) ∧
    (((jsonapi.GetEmailBatch timeOk db s ⟨"GET", body⟩).w.statusCode = 400 ∧
        (∃ m, (jsonapi.GetEmailBatch timeOk db s ⟨"GET", body⟩).w.body = [.errorMsg m]) ∧
        (jsonapi.GetEmailBatch timeOk db s ⟨"GET", body⟩).db = s) ↔
      ((jsonapi.fromJson body {}).Page < 1 ∨ (jsonapi.fromJson body {}).Count < 1)) := by
  have hinv := batchHandler_rejects timeOk db s body
  have hval := batchHandler_accepts timeOk db s body
  have hcases := returnJson_fetchBatch_cases timeOk db s (jsonapi.fromJson body {})
  refine ⟨?_, ?_, ?_⟩
  · intro h
    rw [hinv h]
    exact ⟨rfl, rfl, rfl, rfl⟩
  · intro h
    rw [hval h]
    exact hcases
  · constructor
    · intro hl
      by_contra h
      rw [hval h] at hl
      exact hcases.2.1 hl.1
    · intro h
      rw [hinv h]
      exact ⟨rfl, ⟨_, rfl⟩, rfl⟩

theorem getEmailBatch_handler_validation_witness :
    (jsonapi.GetEmailBatch (fun _ => true) (traced sqliteDriver)
        ([⟨1, "a@x.com", 0, false⟩], []) ⟨"GET", some ⟨0, 5⟩⟩).w.statusCode = 400 ∧
    (jsonapi.GetEmailBatch (fun _ => true) (traced sqliteDriver)
        ([⟨1, "a@x.com", 0, false⟩], []) ⟨"GET", some ⟨0, 5⟩⟩).w.body
      = [.errorMsg "page and count fields are required and must be greater than 0"] ∧
    (jsonapi.GetEmailBatch (fun _ => true) (traced sqliteDriver)
        ([⟨1, "a@x.com", 0, false⟩], []) ⟨"GET", some ⟨0, 5⟩⟩).db
      = ([⟨1, "a@x.com", 0, false⟩], []) ∧
    (jsonapi.GetEmailBatch (fun _ => true) (traced sqliteDriver)
        ([⟨1, "a@x.com", 0, false⟩], []) ⟨"GET", some ⟨2, 3⟩⟩).db
      = ([⟨1, "a@x.com", 0, false⟩], [.query (.activePage 3 3)]) :=
  have h1 := (getEmailBatch_handler_validation (fun _ => true) (traced sqliteDriver)
    ([⟨1, "a@x.com", 0, false⟩], []) (some ⟨0, 5⟩)).1 (by decide)
  have h2 := (getEmailBatch_handler_validation (fun _ => true) (traced sqliteDriver)
    ([⟨1, "a@x.com", 0, false⟩], []) (some ⟨2, 3⟩)).2.1 (by decide)
  ⟨h1.1, h1.2.1, h1.2.2.1, h2.1.trans (by decide)⟩

/-- C8 (counterexample): on a connection whose statements all fail, the `GetEmail` handler
answers a GET request with status 500 and the encoded error value, not with a 400-level
`{"Err": ...}` response. -/
theorem getEmail_handler_store_failure :
    (mdb.GetEmail (brokenDriver ⟨"sql: database is closed"⟩) () "a@x.com").2
      = .error ⟨"sql: database is closed"⟩ ∧
    (jsonapi.GetEmail (fun _ => true) (brokenDriver ⟨"sql: database is closed"⟩) ()
      ⟨"GET", some ⟨0, "a@x.com", none, false⟩⟩).w.statusCode = 500 ∧
    (jsonapi.GetEmail (fun _ => true) (brokenDriver ⟨"sql: database is closed"⟩) ()
      ⟨"GET", some ⟨0, "a@x.com", none, false⟩⟩).w.body
        = [.errorValue ⟨"sql: database is closed"⟩] ∧
    ¬ (400 ≤ (jsonapi.GetEmail (fun _ => true) (brokenDriver ⟨"sql: database is closed"⟩) ()
        ⟨"GET", some ⟨0, "a@x.com", none, false⟩⟩).w.statusCode ∧
       (jsonapi.GetEmail (fun _ => true) (brokenDriver ⟨"sql: database is closed"⟩) ()
        ⟨"GET", some ⟨0, "a@x.com", none, false⟩⟩).w.statusCode < 500) := by
  refine ⟨rfl, by decide, by decide, by decide⟩

/-- C8 (amended): over any store, a failure of the store's `CreateEmail`, `UpdateEmail` or
`DeleteEmail` makes the create, update or delete handler answer HTTP 400 with body
`{"Err": <the error's message>}`; a failure of `GetEmail` when the affected record is
fetched again in those handlers, or when the get handler queries, and a failure of
`GetEmailBatch` in the get_batch handler, make the handler answer HTTP 500 with the JSON
encoding of the error value as body. -/
theorem store_failure_responses {σ : Type} (timeOk : time.Time → Bool) (db : Driver σ)
    (s : σ) (body : Option mdb.EmailEntry) (qbody : Option mdb.GetEmailBatchQueryParams) :
    (∀ s1 err, mdb.CreateEmail db s (jsonapi.fromJson body {}).Email = (s1, some err) →
      jsonapi.CreateEmail timeOk db s ⟨"POST", body⟩
        = ⟨⟨some "application/json; charset=utf-8", some 400, [.errorMsg err.msg]⟩, s1, none⟩) ∧
    (∀ s1 s2 err, mdb.CreateEmail db s (jsonapi.fromJson body {}).Email = (s1, none) →
      mdb.GetEmail db s1 (jsonapi.fromJson body {}).Email = (s2, .error err) →
      jsonapi.CreateEmail timeOk db s ⟨"POST", body⟩
        = ⟨⟨some "application/json; charset=utf-8", some 500, [.errorValue err]⟩, s2, none⟩) ∧
    (∀ s1 err, mdb.GetEmail db s (jsonapi.fromJson body {}).Email = (s1, .error err) →
      jsonapi.GetEmail timeOk db s ⟨"GET", body⟩
        = ⟨⟨some "application/json; charset=utf-8", some 500, [.errorValue err]⟩, s1, none⟩) ∧
    (∀ s1 err, mdb.UpdateEmail db s (jsonapi.fromJson body {}) = (s1, .err err) →
      jsonapi.UpdateEmail timeOk db s ⟨"PUT", body⟩
        = ⟨⟨some "application/json; charset=utf-8", some 400, [.errorMsg err.msg]⟩, s1, none⟩) ∧
    (∀ s1 s2 err, mdb.UpdateEmail db s (jsonapi.fromJson body {}) = (s1, .ok ()) →
      mdb.GetEmail db s1 (jsonapi.fromJson body {}).Email = (s2, .error err) →
      jsonapi.UpdateEmail timeOk db s ⟨"PUT", body⟩
        = ⟨⟨some "application/json; charset=utf-8", some 500, [.errorValue err]⟩, s2, none⟩) ∧
    (∀ s1 err, mdb.DeleteEmail db s (jsonapi.fromJson body {}).Email = (s1, some err) →
      jsonapi.DeleteEmail timeOk db s ⟨"POST", body⟩
        = ⟨⟨some "application/json; charset=utf-8", some 400, [.errorMsg err.msg]⟩, s1, none⟩) ∧
    (∀ s1 s2 err, mdb.DeleteEmail db s (jsonapi.fromJson body {}).Email = (s1, none) →
      mdb.GetEmail db s1 (jsonapi.fromJson body {}).Email = (s2, .error err) →
      jsonapi.DeleteEmail timeOk db s ⟨"POST", body⟩
        = ⟨⟨some "application/json; charset=utf-8", some 500, [.errorValue err]⟩, s2, none⟩) ∧
    (∀ s1 err, 1 ≤ (jsonapi.fromJson qbody {}).Page → 1 ≤ (jsonapi.fromJson qbody {}).Count →
      mdb.GetEmailBatch db s (jsonapi.fromJson qbody {}) = (s1, .err err) →
      jsonapi.GetEmailBatch timeOk db s ⟨"GET", qbody⟩
        = ⟨⟨some "application/json; charset=utf-8", some 500, [.errorValue err]⟩, s1, none⟩) := by
  refine ⟨?_, ?_, ?_, ?_, ?_, ?_, ?_, ?_⟩
  · intro s1 err h
    simp only [jsonapi.CreateEmail, ne_eq, not_true_eq_false, if_false, h]
    exact returnErr_eq timeOk s1 err 400
  · intro s1 s2 err h h2
    simp only [jsonapi.CreateEmail, ne_eq, not_true_eq_false, if_false, h]
    exact returnJson_fetch_error timeOk db s1 s2 _ err h2
  · intro s1 err h
    simp only [jsonapi.GetEmail, ne_eq, not_true_eq_false, if_false]
    exact returnJson_fetch_error timeOk db s s1 _ err h
  · intro s1 err h
    simp only [jsonapi.UpdateEmail, ne_eq, not_true_eq_false, if_false, h]
    exact returnErr_eq timeOk s1 err 400
  · intro s1 s2 err h h2
    simp only [jsonapi.UpdateEmail, ne_eq, not_true_eq_false, if_false, h]
    exact returnJson_fetch_error timeOk db s1 s2 _ err h2
  · intro s1 err h
    simp only [jsonapi.DeleteEmail, ne_eq, not_true_eq_false, if_false, h]
    exact returnErr_eq timeOk s1 err 400
  · intro s1 s2 err h h2
    simp only [jsonapi.DeleteEmail, ne_eq, not_true_eq_false, if_false, h]
    exact returnJson_fetch_error timeOk db s1 s2 _ err h2
  · intro s1 err hp hc h
    rw [batchHandler_accepts timeOk db s qbody (by omega)]
    exact returnJson_fetchBatch_err timeOk db s s1 _ err h

theorem store_failure_responses_witness :
    mdb.CreateEmail (readFailingDriver ⟨"disk I/O error"⟩) [] "a@x.com"
      = ([⟨1, "a@x.com", 0, false⟩], none) ∧
    mdb.GetEmail (readFailingDriver ⟨"disk I/O error"⟩) [⟨1, "a@x.com", 0, false⟩] "a@x.com"
      = ([⟨1, "a@x.com", 0, false⟩], .error ⟨"disk I/O error"⟩) ∧
    jsonapi.CreateEmail (fun _ => true) (readFailingDriver ⟨"disk I/O error"⟩) []
        ⟨"POST", some ⟨0, "a@x.com", none, false⟩⟩
      = ⟨⟨some "application/json; charset=utf-8", some 500,
          [.errorValue ⟨"disk I/O error"⟩]⟩, [⟨1, "a@x.com", 0, false⟩], none⟩ :=
  ⟨rfl, rfl,
    (store_failure_responses (fun _ => true) (readFailingDriver ⟨"disk I/O error"⟩) []
      (some ⟨0, "a@x.com", none, false⟩) none).2.1
      [⟨1, "a@x.com", 0, false⟩] [⟨1, "a@x.com", 0, false⟩] ⟨"disk I/O error"⟩ rfl rfl⟩
